import Mathlib

/-!
# Verification of the qermital terminal emulator core

Shallow embedding of `qermital.py`:
* the pane/tab lifecycle state machine of `TerminalEmulator`
  (`add_terminal_tab`, `close_main_tab`, `close_second_tab`,
  `move_tab_to_second_pane`, `close_second_half`, `initialize_double_pane`);
* the single-instance IPC codec (`SingleInstanceApplication.send_message`,
  `SingleInstanceApplication.read_socket`, `handle_new_instance_message`);
* the resize debouncer of `XTermWidget` (`eventFilter` + `resize_timer`);
* the client-instance control flow of `SingleInstanceApplication.__init__`.

Sessions are identified by the order of creation of their `XTermWidget`
(object identity in the source); `live` records every widget whose
terminal process has been spawned and not terminated.
-/

namespace Qermital

/-- Session identity: the creation index of its `XTermWidget`. -/
abbrev Sid := Nat

/-- The `pane` argument of `add_terminal_tab` ('main' or 'second'); the
source's fallback branch for any other string behaves like 'main'. -/
inductive PaneSel
  | main
  | second
deriving DecidableEq, Repr

/-- State of `TerminalEmulator`: `mainTabs`/`secondTabs` mirror the tab order
of `main_tab_widget` and the optional `second_tab_widget`; `nextId` is the
next fresh widget identity; `tabCounter`, `commandExecuted` mirror the
same-named attributes; `startupRuns` counts how many spawned terminals were
given the startup command `self.command`; `live` lists spawned,
not-terminated terminal widgets. -/
structure EmuState where
  mainTabs : List Sid
  secondTabs : Option (List Sid)
  nextId : Sid
  tabCounter : Nat
  commandExecuted : Bool
  startupRuns : Nat
  live : List Sid
deriving DecidableEq, Repr

/-- The sessions of the second pane, `[]` when the pane is absent. -/
def secondList (s : EmuState) : List Sid := s.secondTabs.getD []

/-- All sessions currently attached to a pane, main pane first. -/
def panes (s : EmuState) : List Sid := s.mainTabs ++ secondList s

/-- `TerminalEmulator.add_terminal_tab(directory, command, pane)`:
for the main pane the startup command is consumed if not yet executed
(`execute_command = not self.command_executed and self.command`); a fresh
`XTermWidget` is built (spawning a terminal process), and attached via
`addTab` — to nothing when `pane='second'` and no second pane exists
(`elif pane == 'second' and self.second_tab_widget`). `hasCmd` states
whether the application was launched with a startup command. -/
def addTabStep (hasCmd : Bool) (s : EmuState) (pane : PaneSel) : EmuState :=
  match pane with
  | .main =>
    let runCmd := !s.commandExecuted && hasCmd
    { s with
      commandExecuted := s.commandExecuted || runCmd
      startupRuns := s.startupRuns + (if runCmd then 1 else 0)
      tabCounter := s.tabCounter + 1
      nextId := s.nextId + 1
      live := s.live ++ [s.nextId]
      mainTabs := s.mainTabs ++ [s.nextId] }
  | .second =>
    { s with
      tabCounter := s.tabCounter + 1
      nextId := s.nextId + 1
      live := s.live ++ [s.nextId]
      secondTabs := s.secondTabs.map (fun l => l ++ [s.nextId]) }

/-- `TerminalEmulator.close_main_tab(index)`: terminate the widget at
`index` (when one exists), `removeTab(index)` (a no-op for an invalid
index, as in Qt), and if the main pane is now empty reset `tab_counter`
and `command_executed` and add a replacement tab. -/
def closeMainStep (hasCmd : Bool) (s : EmuState) (i : Nat) : EmuState :=
  let live' := match s.mainTabs[i]? with
    | some sid => s.live.erase sid
    | none => s.live
  let main' := s.mainTabs.eraseIdx i
  let s1 := { s with live := live', mainTabs := main' }
  if main' = [] then
    addTabStep hasCmd { s1 with tabCounter := 0, commandExecuted := false } .main
  else s1

/-- `TerminalEmulator.close_second_tab(index)`: no-op when the second pane
is absent (an info box is shown); otherwise terminate and remove the tab,
and destroy the second pane if it is now empty. -/
def closeSecondStep (s : EmuState) (i : Nat) : EmuState :=
  match s.secondTabs with
  | none => s
  | some l =>
    let live' := match l[i]? with
      | some sid => s.live.erase sid
      | none => s.live
    let l' := l.eraseIdx i
    { s with live := live', secondTabs := if l' = [] then none else some l' }

/-- `TerminalEmulator.move_tab_to_second_pane(tab_widget, index)` for
`tab_widget = main_tab_widget` (moves from any other widget are rejected
with a warning): remove the widget at `index` from the main pane, create
the second pane if absent, append the widget there, and if the main pane
became empty add a replacement tab (without resetting `command_executed`). -/
def moveToSecondStep (hasCmd : Bool) (s : EmuState) (i : Nat) : EmuState :=
  match s.mainTabs[i]? with
  | none => s
  | some sid =>
    let main' := s.mainTabs.eraseIdx i
    let s1 := { s with mainTabs := main', secondTabs := some (secondList s ++ [sid]) }
    if main' = [] then addTabStep hasCmd s1 .main else s1

/-- `TerminalEmulator.close_second_half()`: no-op when the second pane is
absent; otherwise move every second-pane tab, in order, to the end of the
main pane and destroy the second pane. -/
def closeSecondHalfStep (s : EmuState) : EmuState :=
  match s.secondTabs with
  | none => s
  | some l => { s with mainTabs := s.mainTabs ++ l, secondTabs := none }

/-- `TerminalEmulator.initialize_double_pane()`: ensure the main pane has a
tab, then, if the second pane is absent, `create_second_pane()` (an empty
pane) immediately followed by `add_terminal_tab(pane='second')`. -/
def initDoublePaneStep (hasCmd : Bool) (s : EmuState) : EmuState :=
  let s1 := if s.mainTabs = [] then addTabStep hasCmd s .main else s
  match s1.secondTabs with
  | none => addTabStep hasCmd { s1 with secondTabs := some [] } .second
  | some _ => s1

/-- The event-loop operations that mutate pane/session state. -/
inductive Op
  | addTab (pane : PaneSel)
  | closeMain (i : Nat)
  | closeSecond (i : Nat)
  | moveToSecond (i : Nat)
  | closeSecondHalf
  | initDoublePane
deriving DecidableEq, Repr

/-- One event-loop callback; callbacks run to completion, never interleaved. -/
def step (hasCmd : Bool) (s : EmuState) : Op → EmuState
  | .addTab p => addTabStep hasCmd s p
  | .closeMain i => closeMainStep hasCmd s i
  | .closeSecond i => closeSecondStep s i
  | .moveToSecond i => moveToSecondStep hasCmd s i
  | .closeSecondHalf => closeSecondHalfStep s
  | .initDoublePane => initDoublePaneStep hasCmd s

/-- State before `TerminalEmulator.initUI` adds the first tab. -/
def blankState : EmuState :=
  { mainTabs := [], secondTabs := none, nextId := 0, tabCounter := 0,
    commandExecuted := false, startupRuns := 0, live := [] }

/-- State right after window construction: `initUI` ends in one
`add_terminal_tab()` on the main pane (carrying the startup command). -/
def initState (hasCmd : Bool) : EmuState := addTabStep hasCmd blankState .main

/-- The state after a sequence of event-loop operations from startup. -/
def run (hasCmd : Bool) (ops : List Op) : EmuState :=
  ops.foldl (step hasCmd) (initState hasCmd)

/-- States reachable from window construction by event-loop operations. -/
inductive Reach (hasCmd : Bool) : EmuState → Prop
  | init : Reach hasCmd (initState hasCmd)
  | step (s : EmuState) (op : Op) : Reach hasCmd s → Reach hasCmd (step hasCmd s op)

/-! ## IPC message codec

`SingleInstanceApplication.send_message` / `read_socket` and
`TerminalEmulator.handle_new_instance_message`. Bytes are modelled as
characters: every wire byte produced by `send_message` is ASCII
(`json.dumps` uses `ensure_ascii=True`), where UTF-8 is the identity. -/

/-- JSON values of the subset relevant to the IPC protocol: `null`,
booleans, strings, and flat objects. Numbers, arrays and `\uXXXX` string
escapes are outside the wire subset produced by `send_message` and are not
modelled; every theorem below evaluates the parser only on bodies inside
this subset or on bodies no JSON parser accepts. -/
inductive JVal
  | jnull
  | jbool (b : Bool)
  | jstr (s : List Char)
  | jobj (fields : List (List Char × JVal))
deriving Repr

/-- Skip JSON whitespace. -/
def skipWs (cs : List Char) : List Char :=
  cs.dropWhile (fun c => c = ' ' || c = '\n' || c = '\t' || c = '\r')

/-- Parse a JSON string body (after the opening quote), handling the
single-character escapes; returns the content and the remainder after the
closing quote. -/
def parseJStr : Nat → List Char → Option (List Char × List Char)
  | _, '"' :: r => some ([], r)
  | fuel + 1, '\\' :: c :: r =>
    let esc : Option Char :=
      if c = '"' then some '"'
      else if c = '\\' then some '\\'
      else if c = '/' then some '/'
      else if c = 'n' then some '\n'
      else if c = 't' then some '\t'
      else if c = 'r' then some '\r'
      else if c = 'b' then some (Char.ofNat 8)
      else if c = 'f' then some (Char.ofNat 12)
      else none
    match esc, parseJStr fuel r with
    | some e, some (s, rest) => some (e :: s, rest)
    | _, _ => none
  | fuel + 1, c :: r =>
    match parseJStr fuel r with
    | some (s, rest) => some (c :: s, rest)
    | none => none
  | _, _ => none

mutual

/-- Parse one JSON value of the subset. -/
def parseJVal : Nat → List Char → Option (JVal × List Char)
  | fuel + 1, cs =>
    match skipWs cs with
    | 'n' :: 'u' :: 'l' :: 'l' :: r => some (.jnull, r)
    | 't' :: 'r' :: 'u' :: 'e' :: r => some (.jbool true, r)
    | 'f' :: 'a' :: 'l' :: 's' :: 'e' :: r => some (.jbool false, r)
    | '"' :: r =>
      match parseJStr r.length r with
      | some (s, rest) => some (.jstr s, rest)
      | none => none
    | '\x7b' :: r =>
      match skipWs r with
      | '\x7d' :: rest => some (.jobj [], rest)
      | r' =>
        match parseJObj fuel r' with
        | some (fs, rest) => some (.jobj fs, rest)
        | none => none
    | _ => none
  | 0, _ => none

/-- Parse the fields of a JSON object, positioned at the first key. -/
def parseJObj : Nat → List Char → Option (List (List Char × JVal) × List Char)
  | fuel + 1, cs =>
    match skipWs cs with
    | '"' :: r =>
      match parseJStr r.length r with
      | some (k, rest) =>
        match skipWs rest with
        | ':' :: r2 =>
          match parseJVal fuel r2 with
          | some (v, rest2) =>
            match skipWs rest2 with
            | ',' :: r3 =>
              match parseJObj fuel r3 with
              | some (fs, rest3) => some ((k, v) :: fs, rest3)
              | none => none
            | '\x7d' :: r3 => some ([(k, v)], r3)
            | _ => none
          | none => none
        | _ => none
      | none => none
    | _ => none
  | 0, _ => none

end

/-- `json.loads`: one JSON value followed only by whitespace. -/
def jparse (cs : List Char) : Option JVal :=
  match parseJVal (cs.length + 1) cs with
  | some (v, rest) => if skipWs rest = [] then some v else none
  | none => none

/-- Decimal digit accumulation for `parsePyInt`. -/
def digitsVal (ds : List Char) : Nat :=
  ds.foldl (fun n c => 10 * n + (c.toNat - 48)) 0

/-- Strip leading and trailing spaces. -/
def stripSpaces (cs : List Char) : List Char :=
  ((cs.dropWhile (· = ' ')).reverse.dropWhile (· = ' ')).reverse

/-- Model of Python `int(str)` as applied to the decoded 8-byte header:
optional surrounding spaces, an optional sign, then decimal digits.
(Digit-group underscores, non-space whitespace and non-ASCII digits are
not modelled; no theorem evaluates this on such a header.) -/
def parsePyInt (cs : List Char) : Option Int :=
  match stripSpaces cs with
  | '+' :: ds =>
    if !ds.isEmpty && ds.all Char.isDigit then some (digitsVal ds) else none
  | '-' :: ds =>
    if !ds.isEmpty && ds.all Char.isDigit then some (-(digitsVal ds : Int)) else none
  | ds =>
    if !ds.isEmpty && ds.all Char.isDigit then some (digitsVal ds) else none

/-- Result of one invocation of `read_socket`. -/
inductive RSStatus
  | waiting
  | badLength
  | gotMessage (msg : List Char)
deriving DecidableEq, Repr

/-- One invocation of `SingleInstanceApplication.read_socket` on the
socket's receive buffer: return untouched under 8 bytes; otherwise consume
the 8-byte header (`socket.read(8)`), parse it with `int` (failure drops
the connection with a warning), and if fewer than the declared number of
bytes remain, return — the consumed header is *not* saved anywhere.
Returns the remaining buffer and the status. A non-positive declared
length falls through `bytesAvailable() < length` and reads an empty
`message_data`, which is then not handled. -/
def readSocketStep (buf : List Char) : List Char × RSStatus :=
  if buf.length < 8 then (buf, .waiting)
  else
    let rest := buf.drop 8
    match parsePyInt (buf.take 8) with
    | none => (rest, .badLength)
    | some n =>
      if (rest.length : Int) < n then (rest, .waiting)
      else (rest.drop n.toNat, .gotMessage (rest.take n.toNat))

/-- Dict lookup as produced by `json.loads`: a later duplicate key wins. -/
def lookupField (fs : List (List Char × JVal)) (k : List Char) : Option JVal :=
  (fs.reverse.find? (fun p => p.1 == k)).map Prod.snd

/-- Whether `data.get('action')` equals `'open_new_tab'`. -/
def isOpenNewTab : Option JVal → Bool
  | some (.jstr s) => s == "open_new_tab".data
  | _ => false

/-- `TerminalEmulator.handle_new_instance_message`: on a JSON decode error
the handler falls back to `add_terminal_tab()` on the main pane; on a JSON
object with action `open_new_tab` it adds a main-pane tab (with or without
the folder, depending on `os.path.isdir` — either way a main-pane tab);
any other action adds nothing. A non-object JSON value raises an uncaught
`AttributeError` at `data.get` before any tab is added. -/
def handleMsg (hasCmd : Bool) (e : EmuState) (msg : List Char) : EmuState :=
  match jparse msg with
  | none => addTabStep hasCmd e .main
  | some (.jobj fields) =>
    if isOpenNewTab (lookupField fields ("action".data)) then addTabStep hasCmd e .main
    else e
  | some _ => e

/-- A pending IPC connection on the primary instance: the emulator state,
the socket's receive buffer, whether the connection is still open, whether
the invalid-length warning was shown, and the complete message bodies that
were handled. -/
structure ConnState where
  emu : EmuState
  buf : List Char
  alive : Bool
  warned : Bool
  delivered : List (List Char)
deriving DecidableEq, Repr

/-- Deliver one chunk of bytes to the connection: the chunk is appended to
the receive buffer and `readyRead` re-invokes `read_socket` once. -/
def feedChunk (hasCmd : Bool) (c : ConnState) (chunk : List Char) : ConnState :=
  if !c.alive then c
  else
    let buf := c.buf ++ chunk
    match readSocketStep buf with
    | (buf', .waiting) => { c with buf := buf' }
    | (buf', .badLength) => { c with buf := buf', alive := false, warned := true }
    | (buf', .gotMessage msg) =>
      { emu := if msg.isEmpty then c.emu else handleMsg hasCmd c.emu msg
        buf := buf'
        alive := false
        warned := c.warned
        delivered := if msg.isEmpty then c.delivered else c.delivered ++ [msg] }

/-- A fresh connection to a just-started primary instance. -/
def initConn (hasCmd : Bool) : ConnState :=
  { emu := initState hasCmd, buf := [], alive := true, warned := false, delivered := [] }

/-- Deliver a sequence of chunks to a fresh connection. -/
def feedChunks (hasCmd : Bool) (chunks : List (List Char)) : ConnState :=
  chunks.foldl (feedChunk hasCmd) (initConn hasCmd)

/-- `json.dumps` escaping restricted to the escapes round-tripped by
`parseJStr`; control characters other than newline/tab/return and
non-ASCII characters (which Python writes as `\uXXXX`) are not modelled. -/
def jsonEscapeChar (c : Char) : List Char :=
  if c = '"' then ['\\', '"']
  else if c = '\\' then ['\\', '\\']
  else if c = '\n' then ['\\', 'n']
  else if c = '\t' then ['\\', 't']
  else if c = '\r' then ['\\', 'r']
  else [c]

/-- A JSON string literal. -/
def jsonStr (s : List Char) : List Char :=
  '"' :: (s.map jsonEscapeChar).flatten ++ ['"']

/-- A JSON string-or-null, for the optional folder/command fields. -/
def jsonOptStr : Option (List Char) → List Char
  | none => "null".data
  | some s => jsonStr s

/-- The body built in `send_message`:
`json.dumps` of the message dict, keys in insertion order. -/
def encodeBody (folder command : Option (List Char)) : List Char :=
  "\x7b\"action\": \"open_new_tab\", \"folder\": ".data ++ jsonOptStr folder
    ++ ", \"command\": ".data ++ jsonOptStr command ++ "\x7d".data

/-- The zero-padded 8-byte decimal length header written by
`send_message`. -/
def header8 (n : Nat) : List Char :=
  let ds := Nat.toDigits 10 n
  List.replicate (8 - ds.length) '0' ++ ds

/-- The full wire form written by `send_message`: header, then body. -/
def encodeWire (folder command : Option (List Char)) : List Char :=
  let body := encodeBody folder command
  header8 body.length ++ body

/-! ## Resize debouncer

`XTermWidget.setup_ui` creates a single-shot `resize_timer` connected to
`resize_terminal`; `eventFilter` calls `resize_timer.start(50)` on every
resize event, which (re)starts the timer — a running timer is restarted,
not queued. `resize_terminal` reads `self.size()` at firing time. Time is
in milliseconds. -/

/-- A widget size in pixels: width and height, as read by `self.size()`. -/
abbrev Geom := Nat × Nat

/-- Debouncer state: the pending single-shot deadline (if the timer is
running), the widget's current size, and the sizes passed to
`resize_terminal` so far, in order. -/
structure DebState where
  deadline : Option Nat
  geom : Geom
  fires : List Geom
deriving DecidableEq, Repr

/-- Fire the single-shot timer if its deadline has passed by time `now`:
`resize_terminal` runs with the widget's current size. -/
def fireIfDue (s : DebState) (now : Nat) : DebState :=
  match s.deadline with
  | some d =>
    if d ≤ now then { s with deadline := none, fires := s.fires ++ [s.geom] } else s
  | none => s

/-- A resize notification at time `e.1` with new widget size `e.2`: any
due firing happens first, then the size changes and
`resize_timer.start(50)` restarts the single-shot delay. -/
def notifyEvent (s : DebState) (e : Nat × Geom) : DebState :=
  let s' := fireIfDue s e.1
  { s' with geom := e.2, deadline := some (e.1 + 50) }

/-- Let a still-pending timer fire once the burst goes quiescent. -/
def flushTimer (s : DebState) : DebState :=
  match s.deadline with
  | some _ => { s with deadline := none, fires := s.fires ++ [s.geom] }
  | none => s

/-- Process a burst of resize notifications starting from a quiescent
widget of size `g0`, then wait for quiescence. -/
def debounceRun (g0 : Geom) (es : List (Nat × Geom)) : DebState :=
  flushTimer (es.foldl notifyEvent { deadline := none, geom := g0, fires := [] })

/-! ## Client-instance control flow

`SingleInstanceApplication.__init__` when the endpoint is already owned:
`send_message()` then `sys.exit(0)`. `send_message` shows a warning box
and returns early if `waitForConnected(1000)` fails; otherwise it writes
header and body, flushes, waits up to 1s for the write, and disconnects —
the results of `write`, `flush` and `waitForBytesWritten` are all
discarded, so a failed write changes nothing observable. -/

/-- Observable outcome of a client-instance run. -/
structure ClientOutcome where
  warned : Bool
  exitCode : Nat
deriving DecidableEq, Repr

/-- The client path of `SingleInstanceApplication.__init__` /
`send_message`. `writeOk` (whether the write reached the primary) is a
parameter precisely because the source never inspects it. -/
def clientRun (connectOk writeOk : Bool) : ClientOutcome :=
  if connectOk then { warned := false, exitCode := 0 }
  else { warned := true, exitCode := 0 }

/-! ## Invariants and guarded reachability -/

/-- Structural well-formedness of an emulator state: the main pane is
nonempty, a present second pane is nonempty, no session sits in two pane
slots, the spawned-widget list has no duplicates, every session in a pane
has a live spawned widget, and every spawned widget's identity is below
the fresh counter. -/
structure WF (s : EmuState) : Prop where
  mainNe : s.mainTabs ≠ []
  secondNe : ∀ l, s.secondTabs = some l → l ≠ []
  nodup : (panes s).Nodup
  liveNodup : s.live.Nodup
  panesLive : ∀ x, x ∈ panes s → x ∈ s.live
  liveLt : ∀ x, x ∈ s.live → x < s.nextId

/-- Whether `close_main_tab(i)` would empty the main pane and take the
branch that resets `command_executed` (and `tab_counter`). -/
def triggersReset (s : EmuState) : Op → Prop
  | .closeMain i => s.mainTabs.eraseIdx i = []
  | _ => False

/-- Reachable states along runs in which no `close_main_tab` ever empties
the main pane (so the `command_executed` reset branch never runs). -/
inductive ReachNR (hasCmd : Bool) : EmuState → Prop
  | init : ReachNR hasCmd (initState hasCmd)
  | step (s : EmuState) (op : Op) :
      ReachNR hasCmd s → ¬ triggersReset s op → ReachNR hasCmd (step hasCmd s op)

/-- The caller error named by the specification: requesting a tab in the
second pane while no second pane exists. -/
def callerError (s : EmuState) : Op → Prop
  | .addTab .second => s.secondTabs = none
  | _ => False

/-- Reachable states along runs that never commit the caller error of
targeting an absent second pane. -/
inductive ReachG (hasCmd : Bool) : EmuState → Prop
  | init : ReachG hasCmd (initState hasCmd)
  | step (s : EmuState) (op : Op) :
      ReachG hasCmd s → ¬ callerError s op → ReachG hasCmd (step hasCmd s op)

/-! ## List helpers -/

theorem decomp_of_getElem? {l : List Sid} {i : Nat} {a : Sid} (h : l[i]? = some a) :
    l = l.take i ++ a :: l.drop (i + 1) := by
  have hi : i < l.length := by
    rw [List.getElem?_eq_some] at h
    exact h.1
  have ha : l[i] = a := by
    simpa [List.getElem?_eq_getElem hi] using h
  conv_lhs => rw [← List.take_append_drop i l, List.drop_eq_getElem_cons hi, ha]

theorem not_mem_eraseIdx_of_nodup {l : List Sid} {i : Nat} {a : Sid}
    (h : l[i]? = some a) (hn : l.Nodup) : a ∉ l.eraseIdx i := by
  have hd := decomp_of_getElem? h
  rw [List.eraseIdx_eq_take_drop_succ]
  rw [hd, List.nodup_middle, List.nodup_cons] at hn
  exact hn.1

theorem mem_eraseIdx_of_ne {l : List Sid} {i : Nat} {a x : Sid}
    (h : l[i]? = some a) (hx : x ∈ l) (hne : x ≠ a) : x ∈ l.eraseIdx i := by
  have hd := decomp_of_getElem? h
  rw [List.eraseIdx_eq_take_drop_succ]
  rw [hd] at hx
  simp only [List.mem_append, List.mem_cons] at hx ⊢
  rcases hx with h1 | h2 | h3
  · exact Or.inl h1
  · exact absurd h2 hne
  · exact Or.inr h3

theorem perm_cons_eraseIdx {l : List Sid} {i : Nat} {a : Sid} (h : l[i]? = some a) :
    List.Perm l (a :: l.eraseIdx i) := by
  rw [List.eraseIdx_eq_take_drop_succ]
  conv_lhs => rw [decomp_of_getElem? h]
  exact List.perm_middle

theorem nodup_append_fresh {l : List Sid} {n : Sid}
    (hn : l.Nodup) (hlt : ∀ x ∈ l, x < n) : (l ++ [n]).Nodup := by
  rw [List.nodup_append]
  refine ⟨hn, List.nodup_singleton n, ?_⟩
  intro x hx hmem
  rw [List.mem_singleton] at hmem
  subst hmem
  exact absurd (hlt x hx) (lt_irrefl x)

/-! ## Projections of the step functions -/

@[simp] theorem addTab_main_mainTabs (h : Bool) (s : EmuState) :
    (addTabStep h s .main).mainTabs = s.mainTabs ++ [s.nextId] := rfl

@[simp] theorem addTab_main_secondTabs (h : Bool) (s : EmuState) :
    (addTabStep h s .main).secondTabs = s.secondTabs := rfl

@[simp] theorem addTab_main_nextId (h : Bool) (s : EmuState) :
    (addTabStep h s .main).nextId = s.nextId + 1 := rfl

@[simp] theorem addTab_main_live (h : Bool) (s : EmuState) :
    (addTabStep h s .main).live = s.live ++ [s.nextId] := rfl

@[simp] theorem addTab_second_mainTabs (h : Bool) (s : EmuState) :
    (addTabStep h s .second).mainTabs = s.mainTabs := rfl

@[simp] theorem addTab_second_secondTabs (h : Bool) (s : EmuState) :
    (addTabStep h s .second).secondTabs = s.secondTabs.map (fun l => l ++ [s.nextId]) := rfl

@[simp] theorem addTab_second_nextId (h : Bool) (s : EmuState) :
    (addTabStep h s .second).nextId = s.nextId + 1 := rfl

@[simp] theorem addTab_second_live (h : Bool) (s : EmuState) :
    (addTabStep h s .second).live = s.live ++ [s.nextId] := rfl

/-! ## Preservation of well-formedness -/

theorem wf_addTab_main (h : Bool) {s : EmuState}
    (hsec : ∀ l, s.secondTabs = some l → l ≠ [])
    (hnd : (panes s).Nodup) (hlnd : s.live.Nodup)
    (hpl : ∀ x, x ∈ panes s → x ∈ s.live)
    (hlt : ∀ x, x ∈ s.live → x < s.nextId) :
    WF (addTabStep h s .main) := by
  have hpaneslt : ∀ x ∈ panes s, x < s.nextId := fun x hx => hlt x (hpl x hx)
  constructor
  · simp
  · intro l hl
    exact hsec l (by simpa using hl)
  · show ((s.mainTabs ++ [s.nextId]) ++ secondList (addTabStep h s .main)).Nodup
    have hsl : secondList (addTabStep h s .main) = secondList s := by
      simp [secondList]
    rw [hsl]
    have hperm : List.Perm ((s.mainTabs ++ [s.nextId]) ++ secondList s)
        ((s.mainTabs ++ secondList s) ++ [s.nextId]) := by
      rw [List.append_assoc, List.append_assoc]
      exact List.Perm.append_left _ List.perm_append_comm
    exact hperm.symm.nodup (nodup_append_fresh hnd hpaneslt)
  · simp only [addTab_main_live]
    exact nodup_append_fresh hlnd hlt
  · intro x hx
    simp only [addTab_main_live, List.mem_append, List.mem_singleton]
    have : x ∈ (s.mainTabs ++ [s.nextId]) ++ secondList s := by
      simpa [panes, secondList] using hx
    simp only [List.mem_append, List.mem_singleton] at this
    rcases this with (hm | he) | hs
    · exact Or.inl (hpl x (List.mem_append_left _ hm))
    · exact Or.inr he
    · exact Or.inl (hpl x (List.mem_append_right _ hs))
  · intro x hx
    simp only [addTab_main_live, List.mem_append, List.mem_singleton] at hx
    simp only [addTab_main_nextId]
    rcases hx with hm | he
    · exact Nat.lt_succ_of_lt (hlt x hm)
    · simp [he]

theorem wf_addTab_second (h : Bool) {s : EmuState}
    (hmain : s.mainTabs ≠ [])
    (hnd : (panes s).Nodup) (hlnd : s.live.Nodup)
    (hpl : ∀ x, x ∈ panes s → x ∈ s.live)
    (hlt : ∀ x, x ∈ s.live → x < s.nextId) :
    WF (addTabStep h s .second) := by
  have hpaneslt : ∀ x ∈ panes s, x < s.nextId := fun x hx => hlt x (hpl x hx)
  constructor
  · simpa using hmain
  · intro l hl
    simp only [addTab_second_secondTabs, Option.map_eq_some'] at hl
    obtain ⟨l0, _, rfl⟩ := hl
    simp
  · cases hso : s.secondTabs with
    | none =>
      have : panes (addTabStep h s .second) = panes s := by
        simp [panes, secondList, hso]
      rw [this]; exact hnd
    | some l =>
      have : panes (addTabStep h s .second) = panes s ++ [s.nextId] := by
        simp [panes, secondList, hso]
      rw [this]
      exact nodup_append_fresh hnd hpaneslt
  · simp only [addTab_second_live]
    exact nodup_append_fresh hlnd hlt
  · intro x hx
    simp only [addTab_second_live, List.mem_append, List.mem_singleton]
    cases hso : s.secondTabs with
    | none =>
      have : x ∈ panes s := by simpa [panes, secondList, hso] using hx
      exact Or.inl (hpl x this)
    | some l =>
      have : x ∈ panes s ++ [s.nextId] := by simpa [panes, secondList, hso] using hx
      simp only [List.mem_append, List.mem_singleton] at this
      rcases this with hm | he
      · exact Or.inl (hpl x hm)
      · exact Or.inr he
  · intro x hx
    simp only [addTab_second_live, List.mem_append, List.mem_singleton] at hx
    simp only [addTab_second_nextId]
    rcases hx with hm | he
    · exact Nat.lt_succ_of_lt (hlt x hm)
    · simp [he]

theorem wf_closeMain (h : Bool) {s : EmuState} (w : WF s) (i : Nat) :
    WF (closeMainStep h s i) := by
  have hmainnd : s.mainTabs.Nodup := w.nodup.of_append_left
  cases hget : s.mainTabs[i]? with
  | none =>
    have hle : s.mainTabs.length ≤ i := by
      simpa [List.getElem?_eq_none_iff] using hget
    have heq : s.mainTabs.eraseIdx i = s.mainTabs := by
      rw [List.eraseIdx_eq_take_drop_succ, List.take_of_length_le hle,
        List.drop_eq_nil_of_le (Nat.le_succ_of_le hle), List.append_nil]
    have hstate : closeMainStep h s i = s := by
      unfold closeMainStep
      rw [hget, heq]
      simp only [if_neg w.mainNe]
    rw [hstate]
    exact w
  | some sid =>
    have hsidmem : sid ∈ s.mainTabs := by
      have := decomp_of_getElem? hget
      rw [this]
      simp
    have hxne : ∀ x, x ∈ s.mainTabs.eraseIdx i ++ secondList s → x ≠ sid := by
      intro x hx
      rcases List.mem_append.mp hx with hm | hs
      · intro e; subst e; exact not_mem_eraseIdx_of_nodup hget hmainnd hm
      · intro e; subst e; exact (List.nodup_append.mp w.nodup).2.2 hsidmem hs
    have hnd' : (s.mainTabs.eraseIdx i ++ secondList s).Nodup :=
      ((List.eraseIdx_sublist s.mainTabs i).append_right _).nodup w.nodup
    have hlnd' : (s.live.erase sid).Nodup := w.liveNodup.erase sid
    have hlt' : ∀ x, x ∈ s.live.erase sid → x < s.nextId :=
      fun x hx => w.liveLt x (List.mem_of_mem_erase hx)
    have hpl' : ∀ x, x ∈ s.mainTabs.eraseIdx i ++ secondList s → x ∈ s.live.erase sid := by
      intro x hx
      have hxl : x ∈ s.live := by
        apply w.panesLive
        rcases List.mem_append.mp hx with hm | hs
        · exact List.mem_append_left _ ((List.eraseIdx_sublist _ _).subset hm)
        · exact List.mem_append_right _ hs
      exact (List.mem_erase_of_ne (hxne x hx)).mpr hxl
    have hred : closeMainStep h s i =
        (if s.mainTabs.eraseIdx i = [] then
          addTabStep h { s with live := s.live.erase sid, mainTabs := s.mainTabs.eraseIdx i,
                                tabCounter := 0, commandExecuted := false } .main
        else { s with live := s.live.erase sid, mainTabs := s.mainTabs.eraseIdx i }) := by
      unfold closeMainStep
      rw [hget]
    rw [hred]
    split
    · apply wf_addTab_main h
      · intro l hl
        exact w.secondNe l hl
      · exact hnd'
      · exact hlnd'
      · exact hpl'
      · exact hlt'
    · constructor
      · assumption
      · intro l hl
        exact w.secondNe l hl
      · exact hnd'
      · exact hlnd'
      · exact hpl'
      · exact hlt'

theorem wf_closeSecond {s : EmuState} (w : WF s) (i : Nat) :
    WF (closeSecondStep s i) := by
  cases hso : s.secondTabs with
  | none =>
    have hstate : closeSecondStep s i = s := by
      unfold closeSecondStep
      rw [hso]
    rw [hstate]
    exact w
  | some l =>
    have hsl : secondList s = l := by simp [secondList, hso]
    have hsecnd : l.Nodup := by
      have := w.nodup.of_append_right
      rwa [hsl] at this
    have hred : closeSecondStep s i =
        { s with live := (match l[i]? with
                          | some sid => s.live.erase sid
                          | none => s.live),
                 secondTabs := if l.eraseIdx i = [] then none else some (l.eraseIdx i) } := by
      unfold closeSecondStep
      rw [hso]
    cases hget : l[i]? with
    | none =>
      have hle : l.length ≤ i := by
        simpa [List.getElem?_eq_none_iff] using hget
      have heq : l.eraseIdx i = l := by
        rw [List.eraseIdx_eq_take_drop_succ, List.take_of_length_le hle,
          List.drop_eq_nil_of_le (Nat.le_succ_of_le hle), List.append_nil]
      rw [hget] at hred
      simp only [heq, if_neg (w.secondNe l hso)] at hred
      rw [← hso] at hred
      rw [hred]
      exact w
    | some sid =>
      have hsidmem : sid ∈ l := by
        have := decomp_of_getElem? hget
        rw [this]
        simp
      have hxne : ∀ x, x ∈ s.mainTabs ++ l.eraseIdx i → x ≠ sid := by
        intro x hx
        rcases List.mem_append.mp hx with hm | hs
        · intro e; subst e
          apply (List.nodup_append.mp w.nodup).2.2 hm
          rw [hsl]
          exact hsidmem
        · intro e; subst e; exact not_mem_eraseIdx_of_nodup hget hsecnd hs
      have hpl' : ∀ x, x ∈ s.mainTabs ++ l.eraseIdx i → x ∈ s.live.erase sid := by
        intro x hx
        have hxl : x ∈ s.live := by
          apply w.panesLive
          show x ∈ s.mainTabs ++ secondList s
          rcases List.mem_append.mp hx with hm | hs
          · exact List.mem_append_left _ hm
          · rw [hsl]
            exact List.mem_append_right _ ((List.eraseIdx_sublist _ _).subset hs)
        exact (List.mem_erase_of_ne (hxne x hx)).mpr hxl
      have hlnd' : (s.live.erase sid).Nodup := w.liveNodup.erase sid
      have hlt' : ∀ x, x ∈ s.live.erase sid → x < s.nextId :=
        fun x hx => w.liveLt x (List.mem_of_mem_erase hx)
      rw [hget] at hred
      by_cases hemp : l.eraseIdx i = []
      · rw [if_pos hemp] at hred
        rw [hred]
        constructor
        · exact w.mainNe
        · intro l' hl'
          exact absurd hl' (by simp)
        · show (s.mainTabs ++ ([] : List Sid)).Nodup
          rw [List.append_nil]
          exact w.nodup.of_append_left
        · exact hlnd'
        · intro x hx
          have hx2 : x ∈ s.mainTabs ++ ([] : List Sid) := hx
          rw [List.append_nil] at hx2
          exact hpl' x (List.mem_append_left _ hx2)
        · exact hlt'
      · rw [if_neg hemp] at hred
        rw [hred]
        constructor
        · exact w.mainNe
        · intro l' hl'
          have hl2 : some (l.eraseIdx i) = some l' := hl'
          rw [Option.some_inj] at hl2
          rw [← hl2]
          exact hemp
        · show (s.mainTabs ++ l.eraseIdx i).Nodup
          apply ((List.eraseIdx_sublist l i).append_left s.mainTabs).nodup
          rw [← hsl]
          exact w.nodup
        · exact hlnd'
        · intro x hx
          have hx2 : x ∈ s.mainTabs ++ l.eraseIdx i := hx
          exact hpl' x hx2
        · exact hlt'

theorem wf_move (h : Bool) {s : EmuState} (w : WF s) (i : Nat) :
    WF (moveToSecondStep h s i) := by
  cases hget : s.mainTabs[i]? with
  | none =>
    have hstate : moveToSecondStep h s i = s := by
      unfold moveToSecondStep
      rw [hget]
    rw [hstate]
    exact w
  | some sid =>
    have h1 : List.Perm (panes s) (sid :: (s.mainTabs.eraseIdx i ++ secondList s)) :=
      (perm_cons_eraseIdx hget).append_right (secondList s)
    have h2 : List.Perm (s.mainTabs.eraseIdx i ++ (secondList s ++ [sid]))
        (sid :: (s.mainTabs.eraseIdx i ++ secondList s)) := by
      rw [← List.append_assoc]
      exact List.perm_append_singleton _ _
    have hperm : List.Perm (panes s)
        (s.mainTabs.eraseIdx i ++ (secondList s ++ [sid])) :=
      h1.trans h2.symm
    have hnd1 : (s.mainTabs.eraseIdx i ++ (secondList s ++ [sid])).Nodup :=
      hperm.nodup w.nodup
    have hpl1 : ∀ x, x ∈ s.mainTabs.eraseIdx i ++ (secondList s ++ [sid]) → x ∈ s.live := by
      intro x hx
      exact w.panesLive x (hperm.mem_iff.mpr hx)
    have hred : moveToSecondStep h s i =
        (if s.mainTabs.eraseIdx i = [] then
          addTabStep h { s with mainTabs := s.mainTabs.eraseIdx i,
                                secondTabs := some (secondList s ++ [sid]) } .main
        else { s with mainTabs := s.mainTabs.eraseIdx i,
                      secondTabs := some (secondList s ++ [sid]) }) := by
      unfold moveToSecondStep
      rw [hget]
    rw [hred]
    split
    · apply wf_addTab_main h
      · intro l hl
        have hl2 : some (secondList s ++ [sid]) = some l := hl
        rw [Option.some_inj] at hl2
        rw [← hl2]
        simp
      · exact hnd1
      · exact w.liveNodup
      · exact hpl1
      · exact w.liveLt
    · constructor
      · assumption
      · intro l hl
        have hl2 : some (secondList s ++ [sid]) = some l := hl
        rw [Option.some_inj] at hl2
        rw [← hl2]
        simp
      · exact hnd1
      · exact w.liveNodup
      · exact hpl1
      · exact w.liveLt

theorem wf_closeSecondHalf {s : EmuState} (w : WF s) : WF (closeSecondHalfStep s) := by
  cases hso : s.secondTabs with
  | none =>
    have hstate : closeSecondHalfStep s = s := by
      unfold closeSecondHalfStep
      rw [hso]
    rw [hstate]
    exact w
  | some l =>
    have hpan : panes s = s.mainTabs ++ l := by simp [panes, secondList, hso]
    have hred : closeSecondHalfStep s =
        { s with mainTabs := s.mainTabs ++ l, secondTabs := none } := by
      unfold closeSecondHalfStep
      rw [hso]
    have hp : panes { s with mainTabs := s.mainTabs ++ l, secondTabs := none } =
        s.mainTabs ++ l := by
      simp [panes, secondList]
    rw [hred]
    constructor
    · intro hnil
      exact w.mainNe (List.append_eq_nil.mp hnil).1
    · intro l' hl'
      exact absurd hl' (by simp)
    · rw [hp, ← hpan]
      exact w.nodup
    · exact w.liveNodup
    · intro x hx
      rw [hp] at hx
      apply w.panesLive
      rw [hpan]
      exact hx
    · exact w.liveLt

theorem wf_initDouble (h : Bool) {s : EmuState} (w : WF s) :
    WF (initDoublePaneStep h s) := by
  cases hso : s.secondTabs with
  | some l =>
    have hred : initDoublePaneStep h s = s := by
      simp [initDoublePaneStep, w.mainNe, hso]
    rw [hred]
    exact w
  | none =>
    have hred : initDoublePaneStep h s =
        addTabStep h { s with secondTabs := some [] } .second := by
      simp [initDoublePaneStep, w.mainNe, hso]
    rw [hred]
    apply wf_addTab_second h
    · exact w.mainNe
    · show (panes { s with secondTabs := some [] }).Nodup
      have hp : panes { s with secondTabs := some [] } = s.mainTabs := by
        simp [panes, secondList]
      rw [hp]
      exact w.nodup.of_append_left
    · exact w.liveNodup
    · intro x hx
      have hxm : x ∈ s.mainTabs := by simpa [panes, secondList] using hx
      exact w.panesLive x (List.mem_append_left _ hxm)
    · exact w.liveLt

theorem wf_step (h : Bool) {s : EmuState} (w : WF s) (op : Op) : WF (step h s op) := by
  cases op with
  | addTab p =>
    cases p with
    | main => exact wf_addTab_main h w.secondNe w.nodup w.liveNodup w.panesLive w.liveLt
    | second => exact wf_addTab_second h w.mainNe w.nodup w.liveNodup w.panesLive w.liveLt
  | closeMain i => exact wf_closeMain h w i
  | closeSecond i => exact wf_closeSecond w i
  | moveToSecond i => exact wf_move h w i
  | closeSecondHalf => exact wf_closeSecondHalf w
  | initDoublePane => exact wf_initDouble h w

theorem wf_init (h : Bool) : WF (initState h) := by
  unfold initState
  apply wf_addTab_main h
  · intro l hl
    simp [blankState] at hl
  · simp [panes, secondList, blankState]
  · simp [blankState]
  · intro x hx
    simp [panes, secondList, blankState] at hx
  · intro x hx
    simp [blankState] at hx

theorem reach_wf {h : Bool} {s : EmuState} (hr : Reach h s) : WF s := by
  induction hr with
  | init => exact wf_init h
  | step s op _ ih => exact wf_step h ih op

/-! ## Startup-command bookkeeping -/

@[simp] theorem addTab_main_runs (h : Bool) (s : EmuState) :
    (addTabStep h s .main).startupRuns =
      s.startupRuns + (if (!s.commandExecuted && h) = true then 1 else 0) := rfl

@[simp] theorem addTab_main_exec (h : Bool) (s : EmuState) :
    (addTabStep h s .main).commandExecuted =
      (s.commandExecuted || (!s.commandExecuted && h)) := rfl

@[simp] theorem addTab_second_runs (h : Bool) (s : EmuState) :
    (addTabStep h s .second).startupRuns = s.startupRuns := rfl

@[simp] theorem addTab_second_exec (h : Bool) (s : EmuState) :
    (addTabStep h s .second).commandExecuted = s.commandExecuted := rfl

theorem addTab_main_keeps_inv (h : Bool) (t : EmuState)
    (ht : (h = true → t.commandExecuted = true ∧ t.startupRuns = 1) ∧
          (h = false → t.startupRuns = 0)) :
    ((h = true → (addTabStep h t .main).commandExecuted = true ∧
        (addTabStep h t .main).startupRuns = 1) ∧
     (h = false → (addTabStep h t .main).startupRuns = 0)) := by
  cases h with
  | true =>
    obtain ⟨he, hr1⟩ := ht.1 rfl
    refine ⟨fun _ => ?_, fun hf => nomatch hf⟩
    simp [he, hr1]
  | false =>
    refine ⟨fun hf => (nomatch hf), fun _ => ?_⟩
    simp [ht.2 rfl]

theorem closeMain_noreset_runs (h : Bool) (s : EmuState) (i : Nat)
    (hne : ¬ s.mainTabs.eraseIdx i = []) :
    (closeMainStep h s i).startupRuns = s.startupRuns ∧
    (closeMainStep h s i).commandExecuted = s.commandExecuted := by
  simp [closeMainStep, hne]

theorem invC2_step (h : Bool) (s : EmuState) (op : Op) (hg : ¬ triggersReset s op)
    (ih : (h = true → s.commandExecuted = true ∧ s.startupRuns = 1) ∧
          (h = false → s.startupRuns = 0)) :
    ((h = true → (step h s op).commandExecuted = true ∧ (step h s op).startupRuns = 1) ∧
     (h = false → (step h s op).startupRuns = 0)) := by
  cases op with
  | addTab p =>
    cases p with
    | main => exact addTab_main_keeps_inv h s ih
    | second => simpa [step] using ih
  | closeMain i =>
    have hne : ¬ s.mainTabs.eraseIdx i = [] := hg
    have hc := closeMain_noreset_runs h s i hne
    show ((h = true → (closeMainStep h s i).commandExecuted = true ∧
        (closeMainStep h s i).startupRuns = 1) ∧
      (h = false → (closeMainStep h s i).startupRuns = 0))
    rw [hc.1, hc.2]
    exact ih
  | closeSecond i =>
    have hruns : (closeSecondStep s i).startupRuns = s.startupRuns ∧
        (closeSecondStep s i).commandExecuted = s.commandExecuted := by
      cases hso : s.secondTabs <;> simp [closeSecondStep, hso]
    show _
    rw [show step h s (.closeSecond i) = closeSecondStep s i from rfl, hruns.1, hruns.2]
    exact ih
  | moveToSecond i =>
    show ((h = true → (moveToSecondStep h s i).commandExecuted = true ∧
        (moveToSecondStep h s i).startupRuns = 1) ∧
      (h = false → (moveToSecondStep h s i).startupRuns = 0))
    cases hget : s.mainTabs[i]? with
    | none =>
      have hred : moveToSecondStep h s i = s := by
        unfold moveToSecondStep
        rw [hget]
      rw [hred]
      exact ih
    | some sid =>
      have hred : moveToSecondStep h s i =
          (if s.mainTabs.eraseIdx i = [] then
            addTabStep h { s with mainTabs := s.mainTabs.eraseIdx i,
                                  secondTabs := some (secondList s ++ [sid]) } .main
          else { s with mainTabs := s.mainTabs.eraseIdx i,
                        secondTabs := some (secondList s ++ [sid]) }) := by
        unfold moveToSecondStep
        rw [hget]
      rw [hred]
      split
      · exact addTab_main_keeps_inv h _ ih
      · exact ih
  | closeSecondHalf =>
    have hruns : (closeSecondHalfStep s).startupRuns = s.startupRuns ∧
        (closeSecondHalfStep s).commandExecuted = s.commandExecuted := by
      cases hso : s.secondTabs <;> simp [closeSecondHalfStep, hso]
    show _
    rw [show step h s .closeSecondHalf = closeSecondHalfStep s from rfl, hruns.1, hruns.2]
    exact ih
  | initDoublePane =>
    have hs1 : ((h = true → (if s.mainTabs = [] then addTabStep h s .main else s).commandExecuted = true ∧
        (if s.mainTabs = [] then addTabStep h s .main else s).startupRuns = 1) ∧
      (h = false → (if s.mainTabs = [] then addTabStep h s .main else s).startupRuns = 0)) := by
      split
      · exact addTab_main_keeps_inv h s ih
      · exact ih
    have key : ∀ t : EmuState,
        ((h = true → t.commandExecuted = true ∧ t.startupRuns = 1) ∧
         (h = false → t.startupRuns = 0)) →
        ((h = true →
            (match t.secondTabs with
             | none => addTabStep h { t with secondTabs := some [] } .second
             | some _ => t).commandExecuted = true ∧
            (match t.secondTabs with
             | none => addTabStep h { t with secondTabs := some [] } .second
             | some _ => t).startupRuns = 1) ∧
         (h = false →
            (match t.secondTabs with
             | none => addTabStep h { t with secondTabs := some [] } .second
             | some _ => t).startupRuns = 0)) := by
      intro t ht
      cases hso : t.secondTabs with
      | none => simpa using ht
      | some l => exact ht
    exact key (if s.mainTabs = [] then addTabStep h s .main else s) hs1

theorem reachNR_invariant {h : Bool} {s : EmuState} (hr : ReachNR h s) :
    (h = true → s.commandExecuted = true ∧ s.startupRuns = 1) ∧
    (h = false → s.startupRuns = 0) := by
  induction hr with
  | init =>
    cases h with
    | true =>
      refine ⟨fun _ => ?_, fun hf => nomatch hf⟩
      simp [initState, addTabStep, blankState]
    | false =>
      refine ⟨fun hf => (nomatch hf), fun _ => ?_⟩
      simp [initState, addTabStep, blankState]
  | step s op hrs hg ih => exact invC2_step h s op hg ih

/-! ## Claim theorems -/

/-- C2, counterexample: launched with a startup command, the command has
already run once in the initial tab; closing that only primary tab resets
`command_executed` and the automatically created replacement tab runs the
startup command again — two executions in one application run, violating
"at most once per application run". -/
theorem c2_counterexample :
    (run true [Op.closeMain 0]).startupRuns = 2 ∧
    ¬ (run true [Op.closeMain 0]).startupRuns ≤ 1 := by
  constructor <;> decide

/-- C2 (amended): the startup command is executed at most once per stretch
of the run in which `close_main_tab` never empties the main pane; along any
run in which no `close_main_tab` takes the reset branch, the total number
of startup-command executions is at most one. -/
theorem c2_startup_once_unless_reset {h : Bool} {s : EmuState} (hr : ReachNR h s) :
    s.startupRuns ≤ 1 := by
  rcases reachNR_invariant hr with ⟨h1, h0⟩
  cases h with
  | true => simp [(h1 rfl).2]
  | false => simp [h0 rfl]

/-- Witness for C2's amended theorem at the initial state of a run with a
startup command. -/
theorem c2_startup_once_unless_reset_witness :
    (initState true).startupRuns ≤ 1 :=
  c2_startup_once_unless_reset ReachNR.init

/-- C3: for every reachable state — hence immediately after every
completed operation — the primary pane's session count is at least 1;
`close_main_tab` creates the replacement session inside the same
callback. -/
theorem c3_primary_nonempty {h : Bool} {s : EmuState} (hr : Reach h s) :
    1 ≤ s.mainTabs.length :=
  List.length_pos.mpr (reach_wf hr).mainNe

/-- Witness for C3 at the initial state. -/
theorem c3_primary_nonempty_witness : 1 ≤ (initState true).mainTabs.length :=
  c3_primary_nonempty Reach.init

/-- C4: in every reachable state the second pane, when present, holds at
least one session; opening the double pane from a state without a second
pane leaves it present with exactly one session; and a `close_second_tab`
that empties the second pane destroys it in the same callback. -/
theorem c4_second_pane_iff {h : Bool} {s : EmuState} (hr : Reach h s) :
    (∀ l, s.secondTabs = some l → 1 ≤ l.length) ∧
    (s.secondTabs = none →
      ∃ sid, (step h s .initDoublePane).secondTabs = some [sid]) ∧
    (∀ i l, s.secondTabs = some l → l.eraseIdx i = [] →
      (step h s (.closeSecond i)).secondTabs = none) := by
  have w := reach_wf hr
  refine ⟨?_, ?_, ?_⟩
  · intro l hl
    exact List.length_pos.mpr (w.secondNe l hl)
  · intro hso
    refine ⟨s.nextId, ?_⟩
    show (initDoublePaneStep h s).secondTabs = some [s.nextId]
    have hred : initDoublePaneStep h s =
        addTabStep h { s with secondTabs := some [] } .second := by
      simp [initDoublePaneStep, w.mainNe, hso]
    rw [hred]
    simp
  · intro i l hso hemp
    show (closeSecondStep s i).secondTabs = none
    have hred : closeSecondStep s i =
        { s with live := (match l[i]? with
                          | some sid => s.live.erase sid
                          | none => s.live),
                 secondTabs := if l.eraseIdx i = [] then none else some (l.eraseIdx i) } := by
      unfold closeSecondStep
      rw [hso]
    rw [hred]
    show (if l.eraseIdx i = [] then none else some (l.eraseIdx i)) = none
    rw [if_pos hemp]

/-- Witness for C4 at the initial state (second pane absent). -/
theorem c4_second_pane_iff_witness :
    (∀ l, (initState true).secondTabs = some l → 1 ≤ l.length) ∧
    ((initState true).secondTabs = none →
      ∃ sid, (step true (initState true) .initDoublePane).secondTabs = some [sid]) ∧
    (∀ i l, (initState true).secondTabs = some l → l.eraseIdx i = [] →
      (step true (initState true) (.closeSecond i)).secondTabs = none) :=
  c4_second_pane_iff Reach.init

/-- C5: a `move_tab_to_second_pane` on a session at a valid main-pane
index removes it from the main pane and appends it to the second pane —
afterwards the moved session occurs in the pane slots exactly once, the
second pane is present, and every attached session occurs in exactly one
pane slot. -/
theorem c5_move_exactly_one_pane {h : Bool} {s : EmuState} {i : Nat} {sid : Sid}
    (hr : Reach h s) (hget : s.mainTabs[i]? = some sid) :
    sid ∉ (moveToSecondStep h s i).mainTabs ∧
    sid ∈ secondList (moveToSecondStep h s i) ∧
    (moveToSecondStep h s i).secondTabs ≠ none ∧
    (panes (moveToSecondStep h s i)).count sid = 1 ∧
    (∀ x ∈ panes (moveToSecondStep h s i), (panes (moveToSecondStep h s i)).count x = 1) := by
  have w := reach_wf hr
  have w' : WF (moveToSecondStep h s i) := wf_move h w i
  have hmainnd : s.mainTabs.Nodup := w.nodup.of_append_left
  have hsidmem : sid ∈ s.mainTabs := by
    have := decomp_of_getElem? hget
    rw [this]
    simp
  have hsidlt : sid < s.nextId :=
    w.liveLt sid (w.panesLive sid (List.mem_append_left _ hsidmem))
  have hred : moveToSecondStep h s i =
      (if s.mainTabs.eraseIdx i = [] then
        addTabStep h { s with mainTabs := s.mainTabs.eraseIdx i,
                              secondTabs := some (secondList s ++ [sid]) } .main
      else { s with mainTabs := s.mainTabs.eraseIdx i,
                    secondTabs := some (secondList s ++ [sid]) }) := by
    unfold moveToSecondStep
    rw [hget]
  rw [hred] at w' ⊢
  by_cases hemp : s.mainTabs.eraseIdx i = []
  · rw [if_pos hemp] at w' ⊢
    have hmem2 : sid ∈ secondList s ++ [sid] := List.mem_append_right _ (by simp)
    refine ⟨?_, ?_, ?_, ?_, ?_⟩
    · intro hmem
      have hm2 : sid ∈ s.mainTabs.eraseIdx i ++ [s.nextId] := hmem
      rcases List.mem_append.mp hm2 with h1 | h2
      · exact not_mem_eraseIdx_of_nodup hget hmainnd h1
      · rw [List.mem_singleton] at h2
        exact absurd h2 (Nat.ne_of_lt hsidlt)
    · exact hmem2
    · show some (secondList s ++ [sid]) ≠ none
      simp
    · exact List.count_eq_one_of_mem w'.nodup
        (List.mem_append_right _ hmem2)
    · intro x hx
      exact List.count_eq_one_of_mem w'.nodup hx
  · rw [if_neg hemp] at w' ⊢
    have hmem2 : sid ∈ secondList s ++ [sid] := List.mem_append_right _ (by simp)
    refine ⟨?_, ?_, ?_, ?_, ?_⟩
    · intro hmem
      have hm2 : sid ∈ s.mainTabs.eraseIdx i := hmem
      exact not_mem_eraseIdx_of_nodup hget hmainnd hm2
    · exact hmem2
    · show some (secondList s ++ [sid]) ≠ none
      simp
    · exact List.count_eq_one_of_mem w'.nodup
        (List.mem_append_right _ hmem2)
    · intro x hx
      exact List.count_eq_one_of_mem w'.nodup hx

/-- Witness for C5: moving the only session of a fresh window. -/
theorem c5_move_exactly_one_pane_witness :
    0 ∉ (moveToSecondStep true (initState true) 0).mainTabs ∧
    0 ∈ secondList (moveToSecondStep true (initState true) 0) ∧
    (moveToSecondStep true (initState true) 0).secondTabs ≠ none ∧
    (panes (moveToSecondStep true (initState true) 0)).count 0 = 1 ∧
    (∀ x ∈ panes (moveToSecondStep true (initState true) 0),
      (panes (moveToSecondStep true (initState true) 0)).count x = 1) :=
  c5_move_exactly_one_pane Reach.init (by decide)

/-- C6: with the second pane present holding `l`, `close_second_half`
appends all of `l`, in order, to the end of the main pane and destroys the
second pane; concretely (sessions named by creation index: the initial tab
is 0 = T1, its replacement 1 = T2, the second-pane tab 2 = T3), from
`Primary=[T2]`, opening and then closing the double pane ends with
`Primary=[T2, T3]` and the second pane absent. -/
theorem c6_close_second_half {s : EmuState} {l : List Sid}
    (hsec : s.secondTabs = some l) :
    (closeSecondHalfStep s).mainTabs = s.mainTabs ++ l ∧
    (closeSecondHalfStep s).secondTabs = none ∧
    (run false [Op.closeMain 0, Op.initDoublePane, Op.closeSecondHalf]).mainTabs = [1, 2] ∧
    (run false [Op.closeMain 0, Op.initDoublePane, Op.closeSecondHalf]).secondTabs = none := by
  have hred : closeSecondHalfStep s =
      { s with mainTabs := s.mainTabs ++ l, secondTabs := none } := by
    unfold closeSecondHalfStep
    rw [hsec]
  refine ⟨?_, ?_, ?_, ?_⟩
  · rw [hred]
  · rw [hred]
  · decide
  · decide

/-- Witness for C6 after opening the double pane on a fresh window. -/
theorem c6_close_second_half_witness :
    (closeSecondHalfStep (step false (initState false) Op.initDoublePane)).mainTabs =
      (step false (initState false) Op.initDoublePane).mainTabs ++ [1] ∧
    (closeSecondHalfStep (step false (initState false) Op.initDoublePane)).secondTabs = none ∧
    (run false [Op.closeMain 0, Op.initDoublePane, Op.closeSecondHalf]).mainTabs = [1, 2] ∧
    (run false [Op.closeMain 0, Op.initDoublePane, Op.closeSecondHalf]).secondTabs = none :=
  c6_close_second_half (by decide)

theorem reachG_reach {h : Bool} {s : EmuState} (hr : ReachG h s) : Reach h s := by
  induction hr with
  | init => exact Reach.init
  | step s op hrs hg ih => exact Reach.step s op ih

theorem reachG_live_subset {h : Bool} {s : EmuState} (hr : ReachG h s) :
    ∀ x, x ∈ s.live → x ∈ panes s := by
  induction hr with
  | init =>
    intro x hx
    simp only [initState, addTabStep, blankState] at hx
    simp only [List.nil_append, List.mem_singleton] at hx
    simp [initState, addTabStep, blankState, panes, secondList, hx]
  | step s op hrs hg ih =>
    have w : WF s := reach_wf (reachG_reach hrs)
    cases op with
    | addTab p =>
      cases p with
      | main =>
        intro x hx
        have hx2 : x ∈ s.live ++ [s.nextId] := hx
        show x ∈ (s.mainTabs ++ [s.nextId]) ++ secondList (addTabStep h s .main)
        have hsl : secondList (addTabStep h s .main) = secondList s := by
          simp [secondList]
        rw [hsl]
        rcases List.mem_append.mp hx2 with hm | he
        · rcases List.mem_append.mp (ih x hm) with h1 | h2
          · exact List.mem_append_left _ (List.mem_append_left _ h1)
          · exact List.mem_append_right _ h2
        · exact List.mem_append_left _ (List.mem_append_right _ he)
      | second =>
        have hnn : ¬ s.secondTabs = none := hg
        cases hso : s.secondTabs with
        | none => exact absurd hso hnn
        | some l =>
          intro x hx
          have hx2 : x ∈ s.live ++ [s.nextId] := hx
          show x ∈ s.mainTabs ++ secondList (addTabStep h s .second)
          have hsl : secondList (addTabStep h s .second) = l ++ [s.nextId] := by
            simp [secondList, hso]
          have hsl0 : secondList s = l := by simp [secondList, hso]
          rw [hsl]
          rcases List.mem_append.mp hx2 with hm | he
          · rcases List.mem_append.mp (ih x hm) with h1 | h2
            · exact List.mem_append_left _ h1
            · refine List.mem_append_right _ (List.mem_append_left _ ?_)
              rw [← hsl0]
              exact h2
          · exact List.mem_append_right _ (List.mem_append_right _ he)
    | closeMain i =>
      cases hget : s.mainTabs[i]? with
      | none =>
        have hle : s.mainTabs.length ≤ i := by
          simpa [List.getElem?_eq_none_iff] using hget
        have heq : s.mainTabs.eraseIdx i = s.mainTabs := by
          rw [List.eraseIdx_eq_take_drop_succ, List.take_of_length_le hle,
            List.drop_eq_nil_of_le (Nat.le_succ_of_le hle), List.append_nil]
        have hred : closeMainStep h s i = s := by
          unfold closeMainStep
          rw [hget, heq]
          simp only [if_neg w.mainNe]
        show ∀ x, x ∈ (closeMainStep h s i).live → x ∈ panes (closeMainStep h s i)
        rw [hred]
        exact ih
      | some sid =>
        have hmainnd : s.mainTabs.Nodup := w.nodup.of_append_left
        have hxgen : ∀ x, x ∈ s.live.erase sid →
            x ∈ s.mainTabs.eraseIdx i ++ secondList s := by
          intro x hx
          obtain ⟨hxne, hxl⟩ := (w.liveNodup.mem_erase_iff).mp hx
          rcases List.mem_append.mp (ih x hxl) with hm | hs
          · exact List.mem_append_left _ (mem_eraseIdx_of_ne hget hm hxne)
          · exact List.mem_append_right _ hs
        show ∀ x, x ∈ (closeMainStep h s i).live → x ∈ panes (closeMainStep h s i)
        have hred : closeMainStep h s i =
            (if s.mainTabs.eraseIdx i = [] then
              addTabStep h { s with live := s.live.erase sid,
                                    mainTabs := s.mainTabs.eraseIdx i,
                                    tabCounter := 0, commandExecuted := false } .main
            else { s with live := s.live.erase sid,
                          mainTabs := s.mainTabs.eraseIdx i }) := by
          unfold closeMainStep
          rw [hget]
        rw [hred]
        split
        · intro x hx
          have hx2 : x ∈ s.live.erase sid ++ [s.nextId] := hx
          show x ∈ (s.mainTabs.eraseIdx i ++ [s.nextId]) ++ secondList s
          rcases List.mem_append.mp hx2 with hm | he
          · rcases List.mem_append.mp (hxgen x hm) with h1 | h2
            · exact List.mem_append_left _ (List.mem_append_left _ h1)
            · exact List.mem_append_right _ h2
          · exact List.mem_append_left _ (List.mem_append_right _ he)
        · intro x hx
          have hx2 : x ∈ s.live.erase sid := hx
          show x ∈ s.mainTabs.eraseIdx i ++ secondList s
          exact hxgen x hx2
    | closeSecond i =>
      cases hso : s.secondTabs with
      | none =>
        have hred : closeSecondStep s i = s := by
          unfold closeSecondStep
          rw [hso]
        show ∀ x, x ∈ (closeSecondStep s i).live → x ∈ panes (closeSecondStep s i)
        rw [hred]
        exact ih
      | some l =>
        have hsl : secondList s = l := by simp [secondList, hso]
        have hred : closeSecondStep s i =
            { s with live := (match l[i]? with
                              | some sid => s.live.erase sid
                              | none => s.live),
                     secondTabs := if l.eraseIdx i = [] then none else some (l.eraseIdx i) } := by
          unfold closeSecondStep
          rw [hso]
        cases hget : l[i]? with
        | none =>
          have hle : l.length ≤ i := by
            simpa [List.getElem?_eq_none_iff] using hget
          have heq : l.eraseIdx i = l := by
            rw [List.eraseIdx_eq_take_drop_succ, List.take_of_length_le hle,
              List.drop_eq_nil_of_le (Nat.le_succ_of_le hle), List.append_nil]
          rw [hget] at hred
          simp only [heq, if_neg (w.secondNe l hso)] at hred
          rw [← hso] at hred
          show ∀ x, x ∈ (closeSecondStep s i).live → x ∈ panes (closeSecondStep s i)
          rw [hred]
          exact ih
        | some sid =>
          have hxgen : ∀ x, x ∈ s.live.erase sid →
              x ∈ s.mainTabs ++ l.eraseIdx i := by
            intro x hx
            obtain ⟨hxne, hxl⟩ := (w.liveNodup.mem_erase_iff).mp hx
            rcases List.mem_append.mp (ih x hxl) with hm | hs
            · exact List.mem_append_left _ hm
            · rw [hsl] at hs
              exact List.mem_append_right _ (mem_eraseIdx_of_ne hget hs hxne)
          rw [hget] at hred
          show ∀ x, x ∈ (closeSecondStep s i).live → x ∈ panes (closeSecondStep s i)
          rw [hred]
          by_cases hemp : l.eraseIdx i = []
          · rw [if_pos hemp]
            intro x hx
            have hx2 : x ∈ s.live.erase sid := hx
            show x ∈ s.mainTabs ++ ([] : List Sid)
            rcases List.mem_append.mp (hxgen x hx2) with hm | hs
            · exact List.mem_append_left _ hm
            · rw [hemp] at hs
              cases hs
          · rw [if_neg hemp]
            intro x hx
            have hx2 : x ∈ s.live.erase sid := hx
            show x ∈ s.mainTabs ++ l.eraseIdx i
            exact hxgen x hx2
    | moveToSecond i =>
      cases hget : s.mainTabs[i]? with
      | none =>
        have hred : moveToSecondStep h s i = s := by
          unfold moveToSecondStep
          rw [hget]
        show ∀ x, x ∈ (moveToSecondStep h s i).live → x ∈ panes (moveToSecondStep h s i)
        rw [hred]
        exact ih
      | some sid =>
        have hx0 : ∀ x, x ∈ s.live →
            x ∈ s.mainTabs.eraseIdx i ++ (secondList s ++ [sid]) := by
          intro x hxl
          by_cases hxs : x = sid
          · subst hxs
            exact List.mem_append_right _ (List.mem_append_right _ (by simp))
          · rcases List.mem_append.mp (ih x hxl) with hm | hs
            · exact List.mem_append_left _ (mem_eraseIdx_of_ne hget hm hxs)
            · exact List.mem_append_right _ (List.mem_append_left _ hs)
        show ∀ x, x ∈ (moveToSecondStep h s i).live → x ∈ panes (moveToSecondStep h s i)
        have hred : moveToSecondStep h s i =
            (if s.mainTabs.eraseIdx i = [] then
              addTabStep h { s with mainTabs := s.mainTabs.eraseIdx i,
                                    secondTabs := some (secondList s ++ [sid]) } .main
            else { s with mainTabs := s.mainTabs.eraseIdx i,
                          secondTabs := some (secondList s ++ [sid]) }) := by
          unfold moveToSecondStep
          rw [hget]
        rw [hred]
        split
        · intro x hx
          have hx2 : x ∈ s.live ++ [s.nextId] := hx
          show x ∈ (s.mainTabs.eraseIdx i ++ [s.nextId]) ++ (secondList s ++ [sid])
          rcases List.mem_append.mp hx2 with hm | he
          · rcases List.mem_append.mp (hx0 x hm) with h1 | h2
            · exact List.mem_append_left _ (List.mem_append_left _ h1)
            · exact List.mem_append_right _ h2
          · exact List.mem_append_left _ (List.mem_append_right _ he)
        · intro x hx
          have hx2 : x ∈ s.live := hx
          show x ∈ s.mainTabs.eraseIdx i ++ (secondList s ++ [sid])
          exact hx0 x hx2
    | closeSecondHalf =>
      cases hso : s.secondTabs with
      | none =>
        have hred : closeSecondHalfStep s = s := by
          unfold closeSecondHalfStep
          rw [hso]
        show ∀ x, x ∈ (closeSecondHalfStep s).live → x ∈ panes (closeSecondHalfStep s)
        rw [hred]
        exact ih
      | some l =>
        have hred : closeSecondHalfStep s =
            { s with mainTabs := s.mainTabs ++ l, secondTabs := none } := by
          unfold closeSecondHalfStep
          rw [hso]
        show ∀ x, x ∈ (closeSecondHalfStep s).live → x ∈ panes (closeSecondHalfStep s)
        rw [hred]
        intro x hx
        have hx2 : x ∈ s.live := hx
        show x ∈ (s.mainTabs ++ l) ++ ([] : List Sid)
        rw [List.append_nil]
        have hmem := ih x hx2
        rw [show panes s = s.mainTabs ++ l from by simp [panes, secondList, hso]] at hmem
        exact hmem
    | initDoublePane =>
      cases hso : s.secondTabs with
      | some l =>
        have hred : initDoublePaneStep h s = s := by
          simp [initDoublePaneStep, w.mainNe, hso]
        show ∀ x, x ∈ (initDoublePaneStep h s).live → x ∈ panes (initDoublePaneStep h s)
        rw [hred]
        exact ih
      | none =>
        have hred : initDoublePaneStep h s =
            addTabStep h { s with secondTabs := some [] } .second := by
          simp [initDoublePaneStep, w.mainNe, hso]
        show ∀ x, x ∈ (initDoublePaneStep h s).live → x ∈ panes (initDoublePaneStep h s)
        rw [hred]
        intro x hx
        have hx2 : x ∈ s.live ++ [s.nextId] := hx
        show x ∈ s.mainTabs ++ ([] ++ [s.nextId])
        rcases List.mem_append.mp hx2 with hm | he
        · have hmem := ih x hm
          rw [show panes s = s.mainTabs ++ [] from by simp [panes, secondList, hso]] at hmem
          rw [List.append_nil] at hmem
          exact List.mem_append_left _ hmem
        · exact List.mem_append_right _ (by simpa using he)

/-- C9, counterexample: from a fresh window, `add_terminal_tab(pane='second')`
with no second pane open spawns widget 1 (a live terminal process) that the
`elif pane == 'second' and self.second_tab_widget` guard then attaches to no
pane: a live session that is a member of no pane. -/
theorem c9_counterexample :
    1 ∈ (run false [Op.addTab PaneSel.second]).live ∧
    1 ∉ panes (run false [Op.addTab PaneSel.second]) ∧
    (run false [Op.addTab PaneSel.second]).secondTabs = none := by
  refine ⟨?_, ?_, ?_⟩ <;> decide

/-- C9 (amended): along every run that never targets the second pane while
it is absent (the caller error named by the specification), every live
spawned session is a member of a pane; moreover a `add_terminal_tab` on
the main pane, or on a present second pane, attaches the newly created
session to that pane as its creation completes. -/
theorem c9_sessions_attached {h : Bool} {s : EmuState} (hr : ReachG h s) :
    (∀ x, x ∈ s.live → x ∈ panes s) ∧
    s.nextId ∈ (addTabStep h s .main).mainTabs ∧
    (∀ l, s.secondTabs = some l →
      s.nextId ∈ secondList (addTabStep h s .second)) := by
  refine ⟨reachG_live_subset hr, by simp, ?_⟩
  intro l hso
  simp [secondList, hso]

/-- Witness for C9's amended theorem at the initial state. -/
theorem c9_sessions_attached_witness :
    (∀ x, x ∈ (initState true).live → x ∈ panes (initState true)) ∧
    (initState true).nextId ∈ (addTabStep true (initState true) .main).mainTabs ∧
    (∀ l, (initState true).secondTabs = some l →
      (initState true).nextId ∈ secondList (addTabStep true (initState true) .second)) :=
  c9_sessions_attached ReachG.init

/-- C1 (code-bug evaluation): encoding the message with null folder and
command and delivering it as two chunks — the full 8-byte header first,
then the full JSON body — makes `read_socket` consume the header on its
first invocation without saving it; the second invocation misparses the
first 8 body bytes as a length header, warns, and drops the connection:
the message is never delivered and no tab is added. The same bytes in a
single chunk decode fine and add a tab, isolating the lost-header bug. -/
theorem c1_resumability_bug :
    (feedChunks false [(encodeWire none none).take 8, (encodeWire none none).drop 8]).warned = true ∧
    (feedChunks false [(encodeWire none none).take 8, (encodeWire none none).drop 8]).delivered = [] ∧
    (feedChunks false [(encodeWire none none).take 8, (encodeWire none none).drop 8]).emu = initState false ∧
    (feedChunks false [encodeWire none none]).delivered = [encodeBody none none] ∧
    (feedChunks false [encodeWire none none]).emu.mainTabs = [0, 1] := by
  refine ⟨?_, ?_, ?_, ?_, ?_⟩ <;> decide

/-- C7, counterexample: the length-complete connection bytes
`"00000003abc"` carry a malformed JSON body; `read_socket` hands it to
`handle_new_instance_message`, whose `except json.JSONDecodeError` branch
calls `add_terminal_tab()` — a new session IS created (main pane grows
from 1 to 2 tabs), where the claim says no session is created. -/
theorem c7_counterexample :
    (initState false).mainTabs.length = 1 ∧
    (feedChunks false ["00000003abc".data]).emu.mainTabs.length = 2 ∧
    (feedChunks false ["00000003abc".data]).warned = false ∧
    (feedChunks false ["00000003abc".data]).alive = false := by
  refine ⟨?_, ?_, ?_, ?_⟩ <;> decide

/-- C7 (amended): a non-numeric 8-byte header makes `read_socket` warn and
drop the connection with the emulator state untouched — no session is
created; a length-complete but malformed-JSON body (concretely `"abc"`
under header `"00000003"`) drops the connection after the handler's
decode-error fallback has created one default main-pane session. -/
theorem c7_bad_header_bad_json {hasCmd : Bool} {emu : EmuState} {buf : List Char}
    (h8 : 8 ≤ buf.length) (hbad : parsePyInt (buf.take 8) = none) :
    (feedChunk hasCmd (ConnState.mk emu [] true false []) buf).warned = true ∧
    (feedChunk hasCmd (ConnState.mk emu [] true false []) buf).emu = emu ∧
    (feedChunk hasCmd (ConnState.mk emu [] true false []) buf).alive = false ∧
    (feedChunk hasCmd (ConnState.mk emu [] true false []) buf).delivered = [] ∧
    (feedChunk hasCmd (ConnState.mk emu [] true false []) ("00000003abc".data)).emu =
      addTabStep hasCmd emu .main ∧
    (feedChunk hasCmd (ConnState.mk emu [] true false []) ("00000003abc".data)).alive = false := by
  have hstep : readSocketStep buf = (buf.drop 8, RSStatus.badLength) := by
    unfold readSocketStep
    rw [if_neg (Nat.not_lt.mpr h8), hbad]
  have hstep2 : readSocketStep ("00000003abc".data) = ([], RSStatus.gotMessage ("abc".data)) := by
    rfl
  have hjson : handleMsg hasCmd emu ("abc".data) = addTabStep hasCmd emu .main := by
    rfl
  refine ⟨?_, ?_, ?_, ?_, ?_, ?_⟩ <;>
    simp [feedChunk, hstep, hstep2, hjson]

/-- Witness for C7's amended theorem at the header `"badheadr"`. -/
theorem c7_bad_header_bad_json_witness :
    (feedChunk false (ConnState.mk (initState false) [] true false []) ("badheadr".data)).warned = true ∧
    (feedChunk false (ConnState.mk (initState false) [] true false []) ("badheadr".data)).emu = initState false ∧
    (feedChunk false (ConnState.mk (initState false) [] true false []) ("badheadr".data)).alive = false ∧
    (feedChunk false (ConnState.mk (initState false) [] true false []) ("badheadr".data)).delivered = [] ∧
    (feedChunk false (ConnState.mk (initState false) [] true false []) ("00000003abc".data)).emu =
      addTabStep false (initState false) .main ∧
    (feedChunk false (ConnState.mk (initState false) [] true false []) ("00000003abc".data)).alive = false :=
  c7_bad_header_bad_json (by decide) (by decide)

theorem debounce_burst_aux (fs : List Geom) (t : Nat) (g : Geom) (es : List (Nat × Geom))
    (hchain : List.Chain (fun a b => a.1 ≤ b.1 ∧ b.1 < a.1 + 50) (t, g) es) :
    es.foldl notifyEvent { deadline := some (t + 50), geom := g, fires := fs } =
      { deadline := some ((es.getLastD (t, g)).1 + 50),
        geom := (es.getLastD (t, g)).2, fires := fs } := by
  induction es generalizing t g with
  | nil => rfl
  | cons e es ih =>
    obtain ⟨t', g'⟩ := e
    rw [List.chain_cons] at hchain
    obtain ⟨⟨hle, hlt⟩, hch⟩ := hchain
    have hfire : notifyEvent { deadline := some (t + 50), geom := g, fires := fs } (t', g') =
        { deadline := some (t' + 50), geom := g', fires := fs } := by
      unfold notifyEvent fireIfDue
      simp [Nat.not_le.mpr hlt]
    rw [List.foldl_cons, hfire, ih t' g' hch, List.getLastD_cons]

/-- C8: a burst of one or more resize notifications, each arriving before
the previous one's 50ms single-shot deadline (times nondecreasing), ends
with `resize_terminal` invoked exactly once, with the widget size of the
last notification; each notification restarted the timer instead of
queuing another firing. -/
theorem c8_debounce_coalesces (g0 : Geom) (e : Nat × Geom) (es : List (Nat × Geom))
    (hchain : List.Chain (fun a b => a.1 ≤ b.1 ∧ b.1 < a.1 + 50) e es) :
    (debounceRun g0 (e :: es)).fires = [(es.getLastD e).2] := by
  obtain ⟨t, g⟩ := e
  unfold debounceRun
  rw [List.foldl_cons]
  have h1 : notifyEvent { deadline := none, geom := g0, fires := [] } (t, g) =
      { deadline := some (t + 50), geom := g, fires := [] } := by
    rfl
  rw [h1, debounce_burst_aux [] t g es hchain]
  rfl

/-- Witness for C8: two notifications 30ms apart yield one firing with the
second notification's geometry. -/
theorem c8_debounce_coalesces_witness :
    (debounceRun (5, 5) [(0, (100, 100)), (30, (200, 150))]).fires = [(200, 150)] :=
  c8_debounce_coalesces (5, 5) (0, (100, 100)) [(30, (200, 150))]
    (List.Chain.cons ⟨by decide, by decide⟩ List.Chain.nil)

/-- C10, counterexample: a client whose connection succeeds but whose
write fails shows no warning — `send_message` never inspects the results
of `write`, `flush` or `waitForBytesWritten` — although the claim says a
user-visible warning is shown in that failure case; the exit status is
still 0. -/
theorem c10_counterexample :
    (clientRun true false).warned = false ∧ (clientRun true false).exitCode = 0 := by
  exact ⟨rfl, rfl⟩

/-- C10 (amended): every client-instance run exits with status 0; a
user-visible warning is shown exactly when the connection to the primary
fails (times out), and a write failure is silent. -/
theorem c10_client_exits_zero (connectOk writeOk : Bool) :
    (clientRun connectOk writeOk).exitCode = 0 ∧
    ((clientRun connectOk writeOk).warned = true ↔ connectOk = false) := by
  cases connectOk <;> simp [clientRun]

end Qermital
